import Mathlib

/-!
Shallow embedding of the `sec_filing_connector` repository
(`src/sec_connector/models.py` and `src/sec_connector/client.py`).

Modelling conventions:
* A Python `str` is modelled as `List Char` (`PyStr`).  `str.strip`,
  `str.upper`, `str.zfill` and `str.isdigit` are translated below; `isdigit`
  is modelled over the ASCII digits (the data of this repository is ASCII).
* A JSON value stored in the `filing_date` field of a raw filing record is
  modelled by `JVal` (string / number / null); the other record fields are
  modelled at string type, with absence as `none` (the code reads them with
  `dict.get` and a string default, and the claims only exercise string
  content there).  A numeric JSON value read through `str(...)`, as the
  `cik` field is, enters the model as its decimal rendering.
* `datetime.date` is modelled by `Date` (year/month/day as `Nat`) with the
  Python comparison order (lexicographic) and `date.fromisoformat` modelled
  on its documented `YYYY-MM-DD` form, including calendar validity and the
  `1 ≤ year ≤ 9999` range of Python dates.
* `raise` is modelled with `Except`; each raise site gets its own error
  constructor.  The `isinstance` checks on `date_from` / `date_to` in
  `list_filings` and on the filing in `download_filing` cannot fail in the
  typed model and are therefore not represented.
* `list.sort(key=..., reverse=True)` is Python's stable sort; it is modelled
  by `List.insertionSort` with the reflexive "later or equal date" relation,
  which is stable in exactly the same sense.
-/

/-! ### Python string primitives -/

abbrev PyStr : Type := List Char

instance {ε α : Type} [DecidableEq ε] [DecidableEq α] : DecidableEq (Except ε α)
  | .error e, .error f =>
    if h : e = f then .isTrue (by rw [h]) else .isFalse (by simp [h])
  | .error _, .ok _ => .isFalse (by simp)
  | .ok _, .error _ => .isFalse (by simp)
  | .ok a, .ok b =>
    if h : a = b then .isTrue (by rw [h]) else .isFalse (by simp [h])

def pyS (s : String) : PyStr := s.toList

/-- `str.strip()` (whitespace from both ends). -/
def pyStrip (s : PyStr) : PyStr :=
  ((s.dropWhile Char.isWhitespace).reverse.dropWhile Char.isWhitespace).reverse

/-- ASCII upper-casing of one character, as `str.upper` acts on ASCII. -/
def upperChar (c : Char) : Char :=
  if 'a' ≤ c ∧ c ≤ 'z' then Char.ofNat (c.toNat - 32) else c

/-- `str.upper()`. -/
def pyUpper (s : PyStr) : PyStr := s.map upperChar

/-- `str.zfill(width)`: left-pad with `'0'` to `width`, keeping a leading
sign character in front of the padding.  Strings already at least `width`
long are returned unchanged. -/
def zfill (width : Nat) (s : PyStr) : PyStr :=
  match s with
  | [] => List.replicate width '0'
  | c :: rest =>
    if c = '+' ∨ c = '-' then
      c :: (List.replicate (width - (rest.length + 1)) '0' ++ rest)
    else
      List.replicate (width - (rest.length + 1)) '0' ++ c :: rest

/-- `str.isdigit()`: nonempty and all digits. -/
def pyIsdigit (s : PyStr) : Bool := !s.isEmpty && s.all Char.isDigit

/-- `str(raw.get(field, ""))` for a field modelled at string type. -/
def strOfOpt (o : Option PyStr) : PyStr := o.getD []

/-! ### Dates (`datetime.date`) -/

structure Date where
  year : Nat
  month : Nat
  day : Nat
deriving DecidableEq

/-- Python's `date` comparison: lexicographic on (year, month, day). -/
def Date.le (a b : Date) : Prop :=
  a.year < b.year ∨
    (a.year = b.year ∧
      (a.month < b.month ∨ (a.month = b.month ∧ a.day ≤ b.day)))

instance : ∀ a b : Date, Decidable (Date.le a b) := fun a b => by
  unfold Date.le; exact inferInstance

def isLeap (y : Nat) : Bool :=
  y % 4 = 0 && (y % 100 ≠ 0 || y % 400 = 0)

def daysInMonth (y m : Nat) : Nat :=
  if m = 2 then (if isLeap y then 29 else 28)
  else if m = 4 ∨ m = 6 ∨ m = 9 ∨ m = 11 then 30
  else 31

/-- The invariant of every constructible Python `date`. -/
def Date.Valid (d : Date) : Prop :=
  1 ≤ d.year ∧ d.year ≤ 9999 ∧ 1 ≤ d.month ∧ d.month ≤ 12 ∧
    1 ≤ d.day ∧ d.day ≤ daysInMonth d.year d.month

instance : ∀ d : Date, Decidable d.Valid := fun d => by
  unfold Date.Valid; exact inferInstance

def digitVal (c : Char) : Nat := c.toNat - 48

/-- `date.fromisoformat` on its `YYYY-MM-DD` form; `none` models the
`ValueError` raised on any other input. -/
def parseDate (s : PyStr) : Option Date :=
  match s with
  | [y1, y2, y3, y4, h1, m1, m2, h2, d1, d2] =>
    if h1 = '-' ∧ h2 = '-' ∧ [y1, y2, y3, y4, m1, m2, d1, d2].all Char.isDigit then
      let y := 1000 * digitVal y1 + 100 * digitVal y2 + 10 * digitVal y3 + digitVal y4
      let m := 10 * digitVal m1 + digitVal m2
      let d := 10 * digitVal d1 + digitVal d2
      if 1 ≤ y ∧ 1 ≤ m ∧ m ≤ 12 ∧ 1 ≤ d ∧ d ≤ daysInMonth y m then
        some ⟨y, m, d⟩
      else none
    else none
  | _ => none

def digitChar (k : Nat) : Char :=
  match k with
  | 0 => '0' | 1 => '1' | 2 => '2' | 3 => '3' | 4 => '4'
  | 5 => '5' | 6 => '6' | 7 => '7' | 8 => '8' | 9 => '9'
  | _ => '0'

/-- `date.isoformat()` / `str(date)`: `YYYY-MM-DD`, zero-padded. -/
def dateToIso (d : Date) : PyStr :=
  [digitChar (d.year / 1000 % 10), digitChar (d.year / 100 % 10),
   digitChar (d.year / 10 % 10), digitChar (d.year % 10), '-',
   digitChar (d.month / 10 % 10), digitChar (d.month % 10), '-',
   digitChar (d.day / 10 % 10), digitChar (d.day % 10)]

/-! ### JSON values for the `filing_date` field -/

inductive JVal where
  | jstr (s : PyStr)
  | jnum (n : Int)
  | jnull
deriving DecidableEq

/-! ### Data model (`models.py`) -/

structure CompanyData where
  cik : Option PyStr
  name : Option PyStr
deriving DecidableEq

structure RawFiling where
  cik : Option PyStr
  company_name : Option PyStr
  form_type : Option PyStr
  filing_date : Option JVal
  accession_number : Option PyStr
deriving DecidableEq

structure Company where
  ticker : PyStr
  cik : PyStr
  name : PyStr
deriving DecidableEq

structure Filing where
  cik : PyStr
  company_name : PyStr
  form_type : PyStr
  filing_date : Date
  accession_number : PyStr
deriving DecidableEq

structure FilingFilter where
  form_types : Option (List PyStr) := none
  date_from : Option Date := none
  date_to : Option Date := none
  limit : Nat := 10
deriving DecidableEq

/-- The `positive_limit` validator of `FilingFilter`. -/
def FilingFilter.Valid (f : FilingFilter) : Prop := 0 < f.limit

instance : ∀ f : FilingFilter, Decidable f.Valid := fun f => by
  unfold FilingFilter.Valid; exact inferInstance

inductive LookupError where
  | invalidInput
  | notFound (key : PyStr)
  | missingCik (key : PyStr)
  | nonNumericCik
deriving DecidableEq

inductive QueryError where
  | blankCik
  | typeError
deriving DecidableEq

inductive InitError where
  | emptyCompanies
  | emptyFilings
deriving DecidableEq

/-- `Company(...)` construction with the `pad_cik` validator: strip, require
digits, left-pad to 10. -/
def Company.make (ticker cik name : PyStr) : Except LookupError Company :=
  let v := pyStrip cik
  if pyIsdigit v then .ok ⟨ticker, zfill 10 v, name⟩ else .error .nonNumericCik

/-- `Filing(...)` construction: its `pad_cik` validator left-pads to 10
without any digit check. -/
def Filing.make (cik company_name form_type : PyStr) (filing_date : Date)
    (accession_number : PyStr) : Filing :=
  ⟨zfill 10 cik, company_name, form_type, filing_date, accession_number⟩

/-! ### The client (`client.py`) -/

structure SECClient where
  companies : List (PyStr × CompanyData)
  filings : List RawFiling
deriving DecidableEq

/-- `SECClient.__init__`: both datasets must be nonempty. -/
def SECClient.init (companies_data : List (PyStr × CompanyData))
    (filings_data : List RawFiling) : Except InitError SECClient :=
  if companies_data.isEmpty then .error .emptyCompanies
  else if filings_data.isEmpty then .error .emptyFilings
  else .ok ⟨companies_data, filings_data⟩

/-- `dict.get` on a mapping with unique keys, as an association list. -/
def dictGet {α : Type} (d : List (PyStr × α)) (k : PyStr) : Option α :=
  match d with
  | [] => none
  | (k0, v) :: rest => if k0 = k then some v else dictGet rest k

/-- `SECClient.lookup_company`. -/
def SECClient.lookup_company (c : SECClient) (ticker : PyStr) :
    Except LookupError Company :=
  if pyStrip ticker = [] then .error .invalidInput
  else
    let key := pyUpper ticker
    match dictGet c.companies key with
    | none => .error (.notFound key)
    | some data =>
      let cik := pyStrip (strOfOpt data.cik)
      if cik = [] then .error (.missingCik key)
      else
        let name := match data.name with
          | none => key
          | some n => if n = [] then key else n
        Company.make key cik name

/-- The date handling of one raw record inside the `list_filings` loop:
`filing_date_str = raw.get("filing_date")`, the Python truthiness test, and
`date.fromisoformat` with only `ValueError` caught.  `ok none` means the
record is silently skipped; a truthy non-string value reaches
`fromisoformat` and raises an uncaught `TypeError`. -/
def readFilingDate (v : Option JVal) : Except QueryError (Option Date) :=
  match v with
  | none => .ok none
  | some .jnull => .ok none
  | some (.jnum n) => if n = 0 then .ok none else .error .typeError
  | some (.jstr s) => if s = [] then .ok none else .ok (parseDate s)

/-- One iteration of the admission loop of `list_filings`, in source order:
match on the padded cik first (`continue` on mismatch), then the date
handling; `ok none` is a `continue`, `ok (some f)` appends a `Filing`. -/
def stepRecord (cikP : PyStr) (raw : RawFiling) : Except QueryError (Option Filing) :=
  let raw_cik := zfill 10 (strOfOpt raw.cik)
  if raw_cik = cikP then
    match readFilingDate raw.filing_date with
    | .error e => .error e
    | .ok none => .ok none
    | .ok (some d) =>
      .ok (some (Filing.make raw_cik (strOfOpt raw.company_name)
            (strOfOpt raw.form_type) d (strOfOpt raw.accession_number)))
  else .ok none

/-- The record-admission loop of `list_filings`. -/
def admitFilings (cikP : PyStr) : List RawFiling → Except QueryError (List Filing)
  | [] => .ok []
  | raw :: rest =>
    match stepRecord cikP raw with
    | .error e => .error e
    | .ok none => admitFilings cikP rest
    | .ok (some f) => (admitFilings cikP rest).map (f :: ·)

/-- Pure view of what the admission loop contributes for one record. -/
def admitOne (cikP : PyStr) (raw : RawFiling) : Option Filing :=
  match stepRecord cikP raw with
  | .ok (some f) => some f
  | _ => none

/-- The `filing_date` field does not hold a truthy non-string value (the one
shape on which the loop raises `TypeError`). -/
def dateTypeOK (raw : RawFiling) : Bool :=
  match raw.filing_date with
  | some (.jnum n) => decide (n = 0)
  | _ => true

/-- `if filters.form_types:` — `None` and `[]` are both falsy. -/
def applyFormFilter (ft : Option (List PyStr)) (l : List Filing) : List Filing :=
  match ft with
  | some (x :: xs) =>
    l.filter (fun f => decide (pyUpper f.form_type ∈ (x :: xs).map pyUpper))
  | _ => l

def applyFrom (dfrom : Option Date) (l : List Filing) : List Filing :=
  match dfrom with
  | some d => l.filter (fun f => decide (Date.le d f.filing_date))
  | none => l

def applyTo (dto : Option Date) (l : List Filing) : List Filing :=
  match dto with
  | some d => l.filter (fun f => decide (Date.le f.filing_date d))
  | none => l

def applyFilters (spec : FilingFilter) (l : List Filing) : List Filing :=
  applyTo spec.date_to (applyFrom spec.date_from (applyFormFilter spec.form_types l))

/-- "f before g" for the descending stable sort: `g.filing_date ≤ f.filing_date`. -/
def filingDescR (f g : Filing) : Prop := Date.le g.filing_date f.filing_date

instance : ∀ f g : Filing, Decidable (filingDescR f g) := fun f g => by
  unfold filingDescR; exact inferInstance

/-- `filings.sort(key=lambda f: f.filing_date, reverse=True)` — Python's
stable sort, most recent first. -/
def sortDesc (l : List Filing) : List Filing := List.insertionSort filingDescR l

/-- `SECClient.list_filings`. -/
def SECClient.list_filings (c : SECClient) (cik : PyStr) (spec : FilingFilter) :
    Except QueryError (List Filing) :=
  if pyStrip cik = [] then .error .blankCik
  else
    match admitFilings (zfill 10 cik) c.filings with
    | .error e => .error e
    | .ok fs => .ok ((sortDesc (applyFilters spec fs)).take spec.limit)

/-! ### Export (`download_filing`) -/

/-- The flat JSON object written by `json.dump(filing.model_dump(), ...,
default=str)`: all five fields, the date as its `str(...)` ISO text. -/
structure SavedFiling where
  cik : PyStr
  company_name : PyStr
  form_type : PyStr
  filing_date : PyStr
  accession_number : PyStr
deriving DecidableEq

def serializeFiling (f : Filing) : SavedFiling :=
  ⟨f.cik, f.company_name, f.form_type, dateToIso f.filing_date, f.accession_number⟩

/-- `SECClient.download_filing`, at the value level: the path of the written
file and its content.  Directory creation and the file handle are I/O and
outside the model. -/
def SECClient.download_filing (f : Filing) (out_dir : Option PyStr) :
    PyStr × SavedFiling :=
  let dir := match out_dir with
    | none => pyS "downloads"
    | some d => if d = [] then pyS "downloads" else d
  (dir ++ ('/' :: (f.accession_number ++ pyS ".json")), serializeFiling f)

/-! ### General lemmas: date order -/

theorem Date.le_refl (d : Date) : Date.le d d := by
  unfold Date.le; omega

instance : IsTotal Filing filingDescR :=
  ⟨by intro a b; unfold filingDescR Date.le; omega⟩

instance : IsTrans Filing filingDescR :=
  ⟨by intro a b c; unfold filingDescR Date.le; omega⟩

/-! ### General lemmas: `zfill` -/

theorem zfill_eq_of_not_sign {s : PyStr} (w : Nat) (hne : s ≠ [])
    (hh : ¬(s.head hne = '+' ∨ s.head hne = '-')) :
    zfill w s = List.replicate (w - s.length) '0' ++ s := by
  match s with
  | c :: rest =>
    simp only [List.head_cons] at hh
    simp [zfill, hh, List.length_cons]

theorem length_zfill (w : Nat) (s : PyStr) : (zfill w s).length = max w s.length := by
  match s with
  | [] => simp [zfill]
  | c :: rest =>
    unfold zfill
    by_cases h : c = '+' ∨ c = '-' <;>
      simp [h, List.length_append, List.length_replicate] <;> omega

theorem zfill_of_le_length {s : PyStr} {w : Nat} (h : w ≤ s.length) : zfill w s = s := by
  match s with
  | [] =>
    simp at h
    simp [zfill, h]
  | c :: rest =>
    have hlen : w - (rest.length + 1) = 0 := by simp at h; omega
    unfold zfill
    by_cases hc : c = '+' ∨ c = '-' <;> simp [hc, hlen]

theorem zfill_zfill (w : Nat) (s : PyStr) : zfill w (zfill w s) = zfill w s :=
  zfill_of_le_length (by rw [length_zfill]; omega)

theorem isDigit_ne_sign {c : Char} (h : c.isDigit = true) : ¬(c = '+' ∨ c = '-') := by
  rintro (rfl | rfl) <;> simp at h

theorem zfill_of_all_digits {s : PyStr} (w : Nat) (hne : s ≠ [])
    (hdig : s.all Char.isDigit = true) :
    zfill w s = List.replicate (w - s.length) '0' ++ s := by
  apply zfill_eq_of_not_sign w hne
  exact isDigit_ne_sign (by
    have := List.all_eq_true.mp hdig
    exact this _ (List.head_mem hne))

theorem all_digits_zfill {s : PyStr} (w : Nat) (hne : s ≠ [])
    (hdig : s.all Char.isDigit = true) :
    (zfill w s).all Char.isDigit = true := by
  rw [zfill_of_all_digits w hne hdig]
  simp only [List.all_append, Bool.and_eq_true]
  exact ⟨by simp, hdig⟩

/-! ### General lemmas: the admission loop -/

theorem admitOne_eq_of_step {cikP : PyStr} {raw : RawFiling} {o : Option Filing}
    (h : stepRecord cikP raw = .ok o) : admitOne cikP raw = o := by
  unfold admitOne
  rw [h]
  cases o <;> rfl

theorem stepRecord_ok_of_dateTypeOK {cikP : PyStr} {raw : RawFiling}
    (h : dateTypeOK raw = true) : stepRecord cikP raw = .ok (admitOne cikP raw) := by
  have : ∃ o, stepRecord cikP raw = .ok o := by
    unfold stepRecord readFilingDate dateTypeOK at *
    cases hfd : raw.filing_date with
    | none => by_cases hc : zfill 10 (strOfOpt raw.cik) = cikP <;> simp [hc]
    | some v =>
      rw [hfd] at h
      cases v with
      | jnull => by_cases hc : zfill 10 (strOfOpt raw.cik) = cikP <;> simp [hc]
      | jnum n =>
        have hn : n = 0 := by simpa using h
        by_cases hc : zfill 10 (strOfOpt raw.cik) = cikP <;> simp [hc, hn]
      | jstr s =>
        by_cases hc : zfill 10 (strOfOpt raw.cik) = cikP
        · by_cases hs : s = []
          · simp [hc, hs]
          · cases hp : parseDate s <;> simp [hc, hs, hp]
        · simp [hc]
  obtain ⟨o, ho⟩ := this
  rw [ho, admitOne_eq_of_step ho]

theorem admitFilings_ok_eq {cikP : PyStr} : ∀ {l : List RawFiling} {fs : List Filing},
    admitFilings cikP l = .ok fs → fs = l.filterMap (admitOne cikP)
  | [], fs, h => by
    simp only [admitFilings] at h
    cases h
    rfl
  | raw :: rest, fs, h => by
    rw [List.filterMap_cons]
    unfold admitFilings at h
    cases hs : stepRecord cikP raw with
    | error e => rw [hs] at h; exact absurd h (by simp)
    | ok o =>
      rw [hs] at h
      rw [admitOne_eq_of_step hs]
      cases o with
      | none => exact admitFilings_ok_eq h
      | some f =>
        cases hr : admitFilings cikP rest with
        | error e => rw [hr] at h; exact absurd h (by simp [Except.map])
        | ok gs =>
          rw [hr] at h
          cases h
          rw [← admitFilings_ok_eq hr]

theorem admitFilings_ok_of_dateTypeOK {cikP : PyStr} : ∀ {l : List RawFiling},
    (∀ r ∈ l, dateTypeOK r = true) →
    admitFilings cikP l = .ok (l.filterMap (admitOne cikP))
  | [], _ => rfl
  | raw :: rest, h => by
    have hstep := @stepRecord_ok_of_dateTypeOK cikP raw
      (h raw (List.mem_cons_self raw rest))
    have ih := @admitFilings_ok_of_dateTypeOK cikP rest
      (fun r hr => h r (List.mem_cons_of_mem raw hr))
    unfold admitFilings
    rw [hstep, List.filterMap_cons]
    cases ho : admitOne cikP raw <;> simp [ho, ih, Except.map]

/-! ### General lemmas: stability of the descending sort -/

theorem filter_orderedInsert_pos {α : Type} (r : α → α → Prop) [DecidableRel r]
    (p : α → Bool) (a : α) (l : List α) (hpa : p a = true)
    (h : ∀ b, p b = true → r a b) :
    (l.orderedInsert r a).filter p = a :: l.filter p := by
  induction l with
  | nil => simp [List.orderedInsert, hpa]
  | cons b l ih =>
    by_cases hr : r a b
    · simp [List.orderedInsert, hr, List.filter_cons, hpa]
    · have hpb : p b = false := by
        cases hb : p b
        · rfl
        · exact absurd (h b hb) hr
      simp [List.orderedInsert, hr, List.filter_cons, hpb, ih]

theorem filter_orderedInsert_neg {α : Type} (r : α → α → Prop) [DecidableRel r]
    (p : α → Bool) (a : α) (l : List α) (hpa : p a = false) :
    (l.orderedInsert r a).filter p = l.filter p := by
  induction l with
  | nil => simp [List.orderedInsert, hpa]
  | cons b l ih =>
    by_cases hr : r a b
    · simp [List.orderedInsert, hr, List.filter_cons, hpa]
    · simp [List.orderedInsert, hr, List.filter_cons, ih]

theorem filter_insertionSort {α : Type} (r : α → α → Prop) [DecidableRel r]
    (p : α → Bool) (hmut : ∀ a b, p a = true → p b = true → r a b) :
    ∀ l : List α, (l.insertionSort r).filter p = l.filter p
  | [] => rfl
  | a :: l => by
    rw [List.insertionSort]
    cases hpa : p a with
    | false =>
      rw [filter_orderedInsert_neg r p a _ hpa, filter_insertionSort r p hmut l,
        List.filter_cons_of_neg (by simp [hpa])]
    | true =>
      rw [filter_orderedInsert_pos r p a _ hpa (fun b hb => hmut a b hpa hb),
        filter_insertionSort r p hmut l, List.filter_cons_of_pos (by simp [hpa])]

/-! ### General lemmas: `pyStrip` and `pyUpper` -/

theorem dropWhile_idem (p : Char → Bool) (l : List Char) :
    (l.dropWhile p).dropWhile p = l.dropWhile p := by
  cases h : l.dropWhile p with
  | nil => rfl
  | cons c t =>
    have hc : p c = false := by
      have hne : l.dropWhile p ≠ [] := by simp [h]
      have := List.head_dropWhile_not p l hne
      simpa [h] using this
    simp [List.dropWhile_cons, hc]

theorem head_false_of_dropWhile_eq {p : Char → Bool} {c : Char} {t : List Char}
    (h : (c :: t).dropWhile p = c :: t) : p c = false := by
  by_cases hc : p c
  · rw [List.dropWhile_cons, if_pos hc] at h
    have hlen := congrArg List.length h
    have hle := (List.dropWhile_suffix (l := t) p).length_le
    simp at hlen
    omega
  · simpa using hc

theorem dropWhile_of_trimmed {p : Char → Bool} {a : List Char}
    (ha : a.dropWhile p = a) :
    ((a.reverse.dropWhile p).reverse).dropWhile p = (a.reverse.dropWhile p).reverse := by
  cases hb : (a.reverse.dropWhile p).reverse with
  | nil => rfl
  | cons c t =>
    have hpre : (a.reverse.dropWhile p).reverse <+: a := by
      have hs : a.reverse.dropWhile p <:+ a.reverse := List.dropWhile_suffix p
      have := List.reverse_prefix.mpr hs
      simpa using this
    rw [hb] at hpre
    obtain ⟨rest, hrest⟩ := hpre
    have hc : p c = false := by
      apply head_false_of_dropWhile_eq (p := p) (t := t ++ rest)
      have : a = c :: (t ++ rest) := by rw [← hrest]; simp
      rw [this] at ha
      exact ha
    simp [List.dropWhile_cons, hc]

theorem pyStrip_idem (s : PyStr) : pyStrip (pyStrip s) = pyStrip s := by
  unfold pyStrip
  have h1 := dropWhile_of_trimmed (p := Char.isWhitespace) (dropWhile_idem Char.isWhitespace s)
  rw [h1, List.reverse_reverse, dropWhile_idem]

theorem upperChar_of_isWhitespace {c : Char} (h : c.isWhitespace = true) :
    upperChar c = c := by
  simp [Char.isWhitespace] at h
  rcases h with ((h | h) | h) | h <;> subst h <;> decide


/-! ### General lemmas: ISO date round trip -/

theorem isDigit_digitChar {k : Nat} (h : k < 10) : (digitChar k).isDigit = true := by
  interval_cases k <;> decide

theorem digitVal_digitChar {k : Nat} (h : k < 10) : digitVal (digitChar k) = k := by
  interval_cases k <;> decide

theorem daysInMonth_le (y m : Nat) : daysInMonth y m ≤ 31 := by
  unfold daysInMonth
  split_ifs <;> omega

theorem parseDate_dateToIso {d : Date} (h : d.Valid) : parseDate (dateToIso d) = some d := by
  obtain ⟨hy1, hy2, hm1, hm2, hd1, hd2⟩ := h
  have h10 : ∀ n : Nat, n % 10 < 10 := fun n => Nat.mod_lt _ (by omega)
  have hdigs : ([digitChar (d.year / 1000 % 10), digitChar (d.year / 100 % 10),
      digitChar (d.year / 10 % 10), digitChar (d.year % 10),
      digitChar (d.month / 10 % 10), digitChar (d.month % 10),
      digitChar (d.day / 10 % 10), digitChar (d.day % 10)].all Char.isDigit) = true := by
    simp only [List.all_cons, List.all_nil, Bool.and_eq_true, and_true]
    exact ⟨isDigit_digitChar (h10 _), isDigit_digitChar (h10 _), isDigit_digitChar (h10 _),
      isDigit_digitChar (h10 _), isDigit_digitChar (h10 _), isDigit_digitChar (h10 _),
      isDigit_digitChar (h10 _), isDigit_digitChar (h10 _)⟩
  simp only [dateToIso, parseDate]
  rw [if_pos ⟨trivial, trivial, hdigs⟩]
  rw [digitVal_digitChar (h10 (d.year / 1000)), digitVal_digitChar (h10 (d.year / 100)),
    digitVal_digitChar (h10 (d.year / 10)), digitVal_digitChar (h10 d.year),
    digitVal_digitChar (h10 (d.month / 10)), digitVal_digitChar (h10 d.month),
    digitVal_digitChar (h10 (d.day / 10)), digitVal_digitChar (h10 d.day)]
  have hY : 1000 * (d.year / 1000 % 10) + 100 * (d.year / 100 % 10) +
      10 * (d.year / 10 % 10) + d.year % 10 = d.year := by omega
  have hM : 10 * (d.month / 10 % 10) + d.month % 10 = d.month := by omega
  have hD : 10 * (d.day / 10 % 10) + d.day % 10 = d.day := by
    have h31 : d.day ≤ 31 := le_trans hd2 (daysInMonth_le d.year d.month)
    omega
  rw [hY, hM, hD, if_pos ⟨hy1, hm1, hm2, hd1, hd2⟩]

/-! ### Unfolding lemmas -/

theorem lookup_company_eq (cl : SECClient) (t : PyStr) :
    cl.lookup_company t =
      if pyStrip t = [] then .error .invalidInput
      else
        match dictGet cl.companies (pyUpper t) with
        | none => .error (.notFound (pyUpper t))
        | some data =>
          if pyStrip (strOfOpt data.cik) = [] then .error (.missingCik (pyUpper t))
          else
            Company.make (pyUpper t) (pyStrip (strOfOpt data.cik))
              (match data.name with
               | none => pyUpper t
               | some n => if n = [] then pyUpper t else n) := rfl

theorem dictGet_some_mem {α : Type} {d : List (PyStr × α)} {k : PyStr} {v : α}
    (h : dictGet d k = some v) : k ∈ d.map Prod.fst := by
  induction d with
  | nil => exact absurd h (by simp [dictGet])
  | cons kv rest ih =>
    obtain ⟨k0, v0⟩ := kv
    unfold dictGet at h
    by_cases hk : k0 = k
    · subst hk
      exact List.mem_cons_self _ _
    · rw [if_neg hk] at h
      exact List.mem_cons_of_mem _ (ih h)

/-! ### Shared concrete fixtures for witnesses and counterexamples -/

def appleEntry : CompanyData := ⟨some (pyS "320193"), some (pyS "Apple Inc.")⟩

def rawQ1 : RawFiling :=
  ⟨some (pyS "320193"), some (pyS "Apple Inc."), some (pyS "10-Q"),
    some (.jstr (pyS "2024-01-01")), some (pyS "acc-1")⟩

def rawK : RawFiling :=
  ⟨some (pyS "320193"), some (pyS "Apple Inc."), some (pyS "10-K"),
    some (.jstr (pyS "2024-06-01")), some (pyS "acc-2")⟩

def rawQ2 : RawFiling :=
  ⟨some (pyS "320193"), some (pyS "Apple Inc."), some (pyS "10-Q"),
    some (.jstr (pyS "2023-12-01")), some (pyS "acc-3")⟩

def demoClient : SECClient := ⟨[(pyS "AAPL", appleEntry)], [rawQ1, rawK, rawQ2]⟩

/-! ### Claims -/

/-- Claim C5. `lookup_company` fails with `InvalidInput` exactly when the
ticker is empty after trimming whitespace; with `NotFound` when the
non-blank upper-cased ticker matches no directory entry; and with
`InvalidRecord` (here `missingCik`) when the matched entry's identifier is
empty after trimming. -/
theorem c5_lookup_error_cases (cl : SECClient) (t : PyStr) :
    (cl.lookup_company t = .error .invalidInput ↔ pyStrip t = []) ∧
    (pyStrip t ≠ [] → dictGet cl.companies (pyUpper t) = none →
      cl.lookup_company t = .error (.notFound (pyUpper t))) ∧
    (∀ e, pyStrip t ≠ [] → dictGet cl.companies (pyUpper t) = some e →
      pyStrip (strOfOpt e.cik) = [] →
      cl.lookup_company t = .error (.missingCik (pyUpper t))) := by
  rw [lookup_company_eq]
  refine ⟨⟨?_, ?_⟩, ?_, ?_⟩
  · intro h
    by_contra hne
    rw [if_neg hne] at h
    cases hd : dictGet cl.companies (pyUpper t) with
    | none => rw [hd] at h; exact absurd h (by simp)
    | some data =>
      rw [hd] at h
      simp only at h
      by_cases hcik : pyStrip (strOfOpt data.cik) = []
      · rw [if_pos hcik] at h; exact absurd h (by simp)
      · rw [if_neg hcik] at h
        unfold Company.make at h
        by_cases hdig : pyIsdigit (pyStrip (pyStrip (strOfOpt data.cik))) = true
        · rw [if_pos hdig] at h; exact absurd h (by simp)
        · rw [if_neg hdig] at h; exact absurd h (by simp)
  · intro h
    rw [if_pos h]
  · intro hne hd
    rw [if_neg hne, hd]
  · intro e hne hd hcik
    rw [if_neg hne, hd]
    simp only
    rw [if_pos hcik]

/-- Claim C9. Constructing the client fails when either the ticker directory
or the filings collection is empty, and a constructed client holds a
non-empty directory and a non-empty filing index. -/
theorem c9_init_nonempty (companies_data : List (PyStr × CompanyData))
    (filings_data : List RawFiling) :
    ((∃ c, SECClient.init companies_data filings_data = .ok c) ↔
      companies_data ≠ [] ∧ filings_data ≠ []) ∧
    (∀ c, SECClient.init companies_data filings_data = .ok c →
      c.companies ≠ [] ∧ c.filings ≠ []) := by
  cases h1 : companies_data.isEmpty <;> cases h2 : filings_data.isEmpty <;>
    simp only [SECClient.init, h1, h2, Bool.false_eq_true, if_false, if_true] <;>
    simp_all [List.isEmpty_eq_true, List.isEmpty_eq_false]

/-- Claim C10. `lookup_company` does not trim the ticker before lookup: a
non-blank ticker containing whitespace is looked up as its upper-cased
untrimmed form, so against a directory whose keys contain no whitespace the
call fails with `NotFound`, even when the trimmed ticker is present. -/
theorem c10_lookup_untrimmed_not_found (cl : SECClient) (t : PyStr)
    (hnb : pyStrip t ≠ [])
    (hws : ∃ c ∈ t, c.isWhitespace = true)
    (hkeys : ∀ k ∈ cl.companies.map Prod.fst, ∀ c ∈ k, c.isWhitespace = false)
    (hpresent : dictGet cl.companies (pyUpper (pyStrip t)) ≠ none) :
    cl.lookup_company t = .error (.notFound (pyUpper t)) := by
  have hnone : dictGet cl.companies (pyUpper t) = none := by
    cases hd : dictGet cl.companies (pyUpper t) with
    | none => rfl
    | some v =>
      exfalso
      obtain ⟨c, hcmem, hcws⟩ := hws
      have hmem : upperChar c ∈ pyUpper t := List.mem_map_of_mem upperChar hcmem
      rw [upperChar_of_isWhitespace hcws] at hmem
      have := hkeys _ (dictGet_some_mem hd) c hmem
      rw [hcws] at this
      exact absurd this (by simp)
  rw [lookup_company_eq, if_neg hnb, hnone]

theorem pyIsdigit_ne_nil {s : PyStr} (h : pyIsdigit s = true) : s ≠ [] := by
  intro h0
  rw [h0] at h
  exact absurd h (by decide)

/-- Claim C4. For an entry reachable under the upper-cased ticker with a
usable numeric identifier, `lookup_company` succeeds for every letter-case
variant of the ticker, returns the identifier zero-padded to 10 digits, and
falls back to the upper-cased ticker as display name when the entry
supplies no (or an empty) name. -/
theorem c4_resolve_case_insensitive_padded (cl : SECClient) (t : PyStr) (e : CompanyData)
    (he : dictGet cl.companies (pyUpper t) = some e)
    (hnb : pyStrip t ≠ [])
    (hdig : pyIsdigit (pyStrip (strOfOpt e.cik)) = true) :
    (∀ s, pyUpper s = pyUpper t → pyStrip s ≠ [] →
      cl.lookup_company s = cl.lookup_company t) ∧
    ∃ comp, cl.lookup_company t = .ok comp ∧
      comp.ticker = pyUpper t ∧
      comp.cik = zfill 10 (pyStrip (strOfOpt e.cik)) ∧
      ((e.name = none ∨ e.name = some []) → comp.name = pyUpper t) ∧
      (∀ n, e.name = some n → n ≠ [] → comp.name = n) := by
  refine ⟨?_, ?_⟩
  · intro s hsu hsnb
    rw [lookup_company_eq, lookup_company_eq, if_neg hsnb, if_neg hnb, hsu]
  · have hne : pyStrip (strOfOpt e.cik) ≠ [] := pyIsdigit_ne_nil hdig
    rw [lookup_company_eq, if_neg hnb, he]
    simp only
    rw [if_neg hne]
    unfold Company.make
    simp only
    rw [pyStrip_idem, if_pos hdig]
    refine ⟨_, rfl, rfl, rfl, ?_, ?_⟩
    · rintro (h0 | h0) <;> rw [h0] <;> simp
    · intro n hn hne0
      rw [hn]
      simp [hne0]

/-- Witness for C4: the spec's concrete scenario, via the theorem, plus the
exact returned record. -/
theorem c4_witness :
    (∃ comp, demoClient.lookup_company (pyS "aapl") = .ok comp ∧
      comp.ticker = pyUpper (pyS "aapl") ∧
      comp.cik = zfill 10 (pyStrip (strOfOpt appleEntry.cik)) ∧
      ((appleEntry.name = none ∨ appleEntry.name = some []) →
        comp.name = pyUpper (pyS "aapl")) ∧
      (∀ n, appleEntry.name = some n → n ≠ [] → comp.name = n)) ∧
    demoClient.lookup_company (pyS "aapl") =
      .ok ⟨pyS "AAPL", pyS "0000320193", pyS "Apple Inc."⟩ :=
  ⟨(c4_resolve_case_insensitive_padded demoClient (pyS "aapl") appleEntry
      (by decide) (by decide) (by decide)).2, by decide⟩

/-- Witness for C5: blank, unknown and missing-identifier tickers at
concrete inputs, via the theorem. -/
theorem c5_witness :
    demoClient.lookup_company (pyS "  ") = .error .invalidInput ∧
    demoClient.lookup_company (pyS "goog") = .error (.notFound (pyUpper (pyS "goog"))) ∧
    SECClient.lookup_company ⟨[(pyS "FAKE", ⟨none, some (pyS "Fake Co")⟩)], [rawK]⟩
      (pyS "FAKE") = .error (.missingCik (pyUpper (pyS "FAKE"))) :=
  ⟨(c5_lookup_error_cases demoClient (pyS "  ")).1.mpr (by decide),
   (c5_lookup_error_cases demoClient (pyS "goog")).2.1 (by decide) (by decide),
   (c5_lookup_error_cases ⟨[(pyS "FAKE", ⟨none, some (pyS "Fake Co")⟩)], [rawK]⟩
      (pyS "FAKE")).2.2 ⟨none, some (pyS "Fake Co")⟩ (by decide) (by decide) (by decide)⟩

/-- Witness for C9: a nonempty directory and filing index construct
successfully, via the theorem. -/
theorem c9_witness :
    ∃ c, SECClient.init [(pyS "AAPL", appleEntry)] [rawK] = .ok c :=
  (c9_init_nonempty [(pyS "AAPL", appleEntry)] [rawK]).1.mpr ⟨by decide, by decide⟩

/-- Witness for C10: `" aapl "` is rejected as not found although `AAPL` is
present, via the theorem. -/
theorem c10_witness :
    demoClient.lookup_company (pyS " aapl ") = .error (.notFound (pyUpper (pyS " aapl "))) :=
  c10_lookup_untrimmed_not_found demoClient (pyS " aapl ") (by decide)
    ⟨' ', by decide, by decide⟩ (by decide) (by decide)

theorem stepRecord_none_of_bad {cikP : PyStr} {r : RawFiling}
    (hbad : r.filing_date = none ∨ r.filing_date = some .jnull ∨
      r.filing_date = some (.jnum 0) ∨
      (∃ s, r.filing_date = some (.jstr s) ∧ (s = [] ∨ parseDate s = none))) :
    stepRecord cikP r = .ok none := by
  rcases hbad with h | h | h | ⟨s, h, hs | hs⟩ <;>
    unfold stepRecord readFilingDate <;> rw [h] <;>
    by_cases hc : zfill 10 (strOfOpt r.cik) = cikP <;> simp_all

theorem admitFilings_skip {cikP : PyStr} {r : RawFiling}
    (hr : stepRecord cikP r = .ok none) :
    ∀ (l1 l2 : List RawFiling),
      admitFilings cikP (l1 ++ r :: l2) = admitFilings cikP (l1 ++ l2)
  | [], l2 => by
    simp only [List.nil_append]
    rw [show admitFilings cikP (r :: l2) =
      match stepRecord cikP r with
      | .error e => .error e
      | .ok none => admitFilings cikP l2
      | .ok (some f) => (admitFilings cikP l2).map (f :: ·) from rfl, hr]
  | a :: t, l2 => by
    simp only [List.cons_append]
    rw [show admitFilings cikP (a :: (t ++ r :: l2)) =
      match stepRecord cikP a with
      | .error e => .error e
      | .ok none => admitFilings cikP (t ++ r :: l2)
      | .ok (some f) => (admitFilings cikP (t ++ r :: l2)).map (f :: ·) from rfl]
    rw [admitFilings_skip hr t l2]
    rfl

/-- Claim C2, amended. A stored record of the queried owner whose date field
is absent, null, an empty or unparsable string, or the falsy number `0`, is
silently dropped: removing it from the stored collection does not change
any query result.  (The claim's "for any content of the date field" fails:
a truthy non-string date raises `TypeError`, see the counterexample.) -/
theorem c2_amended_bad_date_dropped (companies : List (PyStr × CompanyData))
    (l1 l2 : List RawFiling) (r : RawFiling) (cik : PyStr) (spec : FilingFilter)
    (hmatch : zfill 10 (strOfOpt r.cik) = zfill 10 cik)
    (hbad : r.filing_date = none ∨ r.filing_date = some .jnull ∨
      r.filing_date = some (.jnum 0) ∨
      (∃ s, r.filing_date = some (.jstr s) ∧ (s = [] ∨ parseDate s = none))) :
    SECClient.list_filings ⟨companies, l1 ++ r :: l2⟩ cik spec =
      SECClient.list_filings ⟨companies, l1 ++ l2⟩ cik spec := by
  unfold SECClient.list_filings
  simp only
  rw [admitFilings_skip (stepRecord_none_of_bad hbad) l1 l2]

/-- Witness for C2 (amended): a record with an unparsable date string and a
record with a missing date are invisible to the query, via the theorem, and
the surrounding query succeeds. -/
theorem c2_witness :
    SECClient.list_filings ⟨[], [rawQ1, ⟨some (pyS "320193"), some (pyS "Apple Inc."),
        some (pyS "8-K"), some (.jstr (pyS "invalid-date")), some (pyS "acc-4")⟩, rawK]⟩
      (pyS "320193") {} =
      SECClient.list_filings ⟨[], [rawQ1, rawK]⟩ (pyS "320193") {} ∧
    SECClient.list_filings ⟨[], [rawQ1, rawK]⟩ (pyS "320193") {} =
      .ok [Filing.make (pyS "0000320193") (pyS "Apple Inc.") (pyS "10-K") ⟨2024, 6, 1⟩ (pyS "acc-2"),
           Filing.make (pyS "0000320193") (pyS "Apple Inc.") (pyS "10-Q") ⟨2024, 1, 1⟩ (pyS "acc-1")] :=
  ⟨c2_amended_bad_date_dropped [] [rawQ1] [rawK] _ (pyS "320193") {} (by decide)
      (Or.inr (Or.inr (Or.inr ⟨pyS "invalid-date", rfl, Or.inr (by decide)⟩))),
   by decide⟩

/-- Counterexample for C2: a record of the queried owner whose date field
holds the truthy number `5` makes the query raise (`TypeError`), instead of
being silently dropped — removing it turns the error into a result. -/
theorem c2_counterexample :
    SECClient.list_filings ⟨[], [⟨some (pyS "320193"), some (pyS "Apple Inc."),
        some (pyS "8-K"), some (.jnum 5), some (pyS "acc-5")⟩]⟩
      (pyS "320193") {} = .error .typeError ∧
    SECClient.list_filings ⟨[], []⟩ (pyS "320193") {} = .ok [] := by decide

/-! ### C7 support: zfill and leading zeros -/

def isZeroChar (c : Char) : Bool := c = '0'

theorem takeWhile_zeros_eq_replicate (s : PyStr) :
    s.takeWhile isZeroChar = List.replicate (s.takeWhile isZeroChar).length '0' := by
  rw [List.eq_replicate_iff]
  refine ⟨rfl, fun b hb => ?_⟩
  have := List.mem_takeWhile_imp hb
  simpa [isZeroChar] using this

theorem zfill_eq_padded_core {w : Nat} {s : PyStr} (hdig : s.all Char.isDigit = true)
    (hlen : s.length ≤ w) :
    zfill w s = List.replicate (w - (s.dropWhile isZeroChar).length) '0' ++
      s.dropWhile isZeroChar := by
  by_cases hs : s = []
  · subst hs
    simp [zfill]
  · have hsplit : s.length =
        (s.takeWhile isZeroChar).length + (s.dropWhile isZeroChar).length := by
      conv_lhs => rw [← List.takeWhile_append_dropWhile (p := isZeroChar) (l := s)]
      rw [List.length_append]
    rw [zfill_eq_of_not_sign w hs
      (isDigit_ne_sign (List.all_eq_true.mp hdig _ (List.head_mem hs)))]
    conv_lhs => rw [← List.takeWhile_append_dropWhile (p := isZeroChar) (l := s),
      takeWhile_zeros_eq_replicate]
    rw [← List.append_assoc, List.append_replicate_replicate]
    simp only [List.length_append, List.length_replicate]
    congr 2
    omega

theorem zfill_eq_of_dropZeros {c1 c2 : PyStr} (w : Nat)
    (hd1 : c1.all Char.isDigit = true) (hd2 : c2.all Char.isDigit = true)
    (hl1 : c1.length ≤ w) (hl2 : c2.length ≤ w)
    (hz : c1.dropWhile isZeroChar = c2.dropWhile isZeroChar) :
    zfill w c1 = zfill w c2 := by
  rw [zfill_eq_padded_core hd1 hl1, zfill_eq_padded_core hd2 hl2, hz]

/-- Claim C7, amended. For non-blank numeric query identifiers of at most 10
characters, `list_filings` returns the same result for any two identifiers
that differ only in leading zeros.  (Identifiers longer than 10 characters
are not padded and escape this insensitivity, see the counterexample.) -/
theorem c7_amended_leading_zero_insensitive (cl : SECClient)
    (cik1 cik2 : PyStr) (spec : FilingFilter)
    (h1 : pyStrip cik1 ≠ []) (h2 : pyStrip cik2 ≠ [])
    (hd1 : cik1.all Char.isDigit = true) (hd2 : cik2.all Char.isDigit = true)
    (hl1 : cik1.length ≤ 10) (hl2 : cik2.length ≤ 10)
    (hz : cik1.dropWhile isZeroChar = cik2.dropWhile isZeroChar) :
    cl.list_filings cik1 spec = cl.list_filings cik2 spec := by
  unfold SECClient.list_filings
  rw [if_neg h1, if_neg h2, zfill_eq_of_dropZeros 10 hd1 hd2 hl1 hl2 hz]

/-- Witness for C7 (amended): `"320193"` and `"0000320193"` give identical
results, via the theorem. -/
theorem c7_witness :
    demoClient.list_filings (pyS "320193") {} =
      demoClient.list_filings (pyS "0000320193") {} :=
  c7_amended_leading_zero_insensitive demoClient (pyS "320193") (pyS "0000320193") {}
    (by decide) (by decide) (by decide) (by decide) (by decide) (by decide) (by decide)

def bigRec : RawFiling :=
  ⟨some (pyS "12345678901"), none, some (pyS "10-K"),
    some (.jstr (pyS "2024-06-01")), some (pyS "acc-big")⟩

/-- Counterexample for C7: two non-blank numeric identifiers that differ
only in leading zeros but are longer than 10 characters produce different
results, because `zfill(10)` leaves both unchanged. -/
theorem c7_counterexample :
    (pyS "12345678901").dropWhile isZeroChar =
      (pyS "012345678901").dropWhile isZeroChar ∧
    pyStrip (pyS "12345678901") ≠ [] ∧
    pyStrip (pyS "012345678901") ≠ [] ∧
    (pyS "12345678901").all Char.isDigit = true ∧
    (pyS "012345678901").all Char.isDigit = true ∧
    SECClient.list_filings ⟨[], [bigRec]⟩ (pyS "12345678901") {} ≠
      SECClient.list_filings ⟨[], [bigRec]⟩ (pyS "012345678901") {} := by decide

/-! ### C1 support -/

theorem list_filings_ok_shape {cl : SECClient} {cik : PyStr} {spec : FilingFilter}
    {res : List Filing} (h : cl.list_filings cik spec = .ok res) :
    res = (sortDesc (applyFilters spec
      (cl.filings.filterMap (admitOne (zfill 10 cik))))).take spec.limit := by
  unfold SECClient.list_filings at h
  by_cases hb : pyStrip cik = []
  · rw [if_pos hb] at h
    exact absurd h (by simp)
  · rw [if_neg hb] at h
    cases ha : admitFilings (zfill 10 cik) cl.filings with
    | error e => rw [ha] at h; exact absurd h (by simp)
    | ok fs =>
      rw [ha] at h
      simp only [Except.ok.injEq] at h
      rw [← h, admitFilings_ok_eq ha]

/-- Claim C1.  Whenever a query returns, its result is the head of the
stable descending-date sort of the filtered admitted records: at most
`spec.limit` records, dates non-increasing, and records of equal date in
the order in which they appear in the stored collection. -/
theorem c1_query_sorted_stable_limited (cl : SECClient) (cik : PyStr)
    (spec : FilingFilter) (res : List Filing) (hval : spec.Valid)
    (h : cl.list_filings cik spec = .ok res) :
    res = (sortDesc (applyFilters spec
      (cl.filings.filterMap (admitOne (zfill 10 cik))))).take spec.limit ∧
    List.Sorted filingDescR res ∧
    (∀ dd : Date,
      (sortDesc (applyFilters spec
          (cl.filings.filterMap (admitOne (zfill 10 cik))))).filter
          (fun f => decide (f.filing_date = dd)) =
        (applyFilters spec (cl.filings.filterMap (admitOne (zfill 10 cik)))).filter
          (fun f => decide (f.filing_date = dd))) ∧
    res.length ≤ spec.limit := by
  have hshape := list_filings_ok_shape h
  refine ⟨hshape, ?_, ?_, ?_⟩
  · rw [hshape]
    exact List.Pairwise.sublist (List.take_sublist _ _)
      (List.sorted_insertionSort filingDescR _)
  · intro dd
    apply filter_insertionSort
    intro a b ha hb
    have ha' : a.filing_date = dd := by simpa using ha
    have hb' : b.filing_date = dd := by simpa using hb
    unfold filingDescR
    rw [ha', hb']
    exact Date.le_refl dd
  · rw [hshape]
    exact List.length_take_le _ _

def c1res : List Filing :=
  [Filing.make (pyS "0000320193") (pyS "Apple Inc.") (pyS "10-K") ⟨2024, 6, 1⟩ (pyS "acc-2"),
   Filing.make (pyS "0000320193") (pyS "Apple Inc.") (pyS "10-Q") ⟨2024, 1, 1⟩ (pyS "acc-1"),
   Filing.make (pyS "0000320193") (pyS "Apple Inc.") (pyS "10-Q") ⟨2023, 12, 1⟩ (pyS "acc-3")]

/-- Witness for C1: the demo query returns a sorted, limited result, via
the theorem. -/
theorem c1_witness :
    ({} : FilingFilter).Valid ∧
    demoClient.list_filings (pyS "320193") {} = .ok c1res ∧
    List.Sorted filingDescR c1res ∧
    c1res.length ≤ ({} : FilingFilter).limit :=
  ⟨by decide, by decide,
   (c1_query_sorted_stable_limited demoClient (pyS "320193") {} c1res
      (by decide) (by decide)).2.1,
   (c1_query_sorted_stable_limited demoClient (pyS "320193") {} c1res
      (by decide) (by decide)).2.2.2⟩

/-! ### C6 support -/

theorem mem_applyFormFilter {ft : Option (List PyStr)} {l : List Filing} {f : Filing}
    (h : f ∈ applyFormFilter ft l) :
    f ∈ l ∧ ∀ x xs, ft = some (x :: xs) →
      pyUpper f.form_type ∈ (x :: xs).map pyUpper := by
  cases ft with
  | none => exact ⟨h, by simp⟩
  | some fts =>
    cases fts with
    | nil => exact ⟨h, by simp⟩
    | cons x xs =>
      unfold applyFormFilter at h
      have hm := List.mem_filter.mp h
      refine ⟨hm.1, fun y ys hy => ?_⟩
      cases hy
      simpa using hm.2

theorem mem_applyFrom {dfrom : Option Date} {l : List Filing} {f : Filing}
    (h : f ∈ applyFrom dfrom l) :
    f ∈ l ∧ ∀ d, dfrom = some d → Date.le d f.filing_date := by
  cases dfrom with
  | none => exact ⟨h, by simp⟩
  | some d =>
    unfold applyFrom at h
    have hm := List.mem_filter.mp h
    refine ⟨hm.1, fun y hy => ?_⟩
    cases hy
    simpa using hm.2

theorem mem_applyTo {dto : Option Date} {l : List Filing} {f : Filing}
    (h : f ∈ applyTo dto l) :
    f ∈ l ∧ ∀ d, dto = some d → Date.le f.filing_date d := by
  cases dto with
  | none => exact ⟨h, by simp⟩
  | some d =>
    unfold applyTo at h
    have hm := List.mem_filter.mp h
    refine ⟨hm.1, fun y hy => ?_⟩
    cases hy
    simpa using hm.2

theorem mem_applyFilters {spec : FilingFilter} {l : List Filing} {f : Filing}
    (h : f ∈ applyFilters spec l) :
    f ∈ l ∧
    (∀ x xs, spec.form_types = some (x :: xs) →
      pyUpper f.form_type ∈ (x :: xs).map pyUpper) ∧
    (∀ d, spec.date_from = some d → Date.le d f.filing_date) ∧
    (∀ d, spec.date_to = some d → Date.le f.filing_date d) := by
  unfold applyFilters at h
  obtain ⟨h2, hto⟩ := mem_applyTo h
  obtain ⟨h1, hfrom⟩ := mem_applyFrom h2
  obtain ⟨h0, hform⟩ := mem_applyFormFilter h1
  exact ⟨h0, hform, hfrom, hto⟩

theorem mem_of_mem_list_filings {cl : SECClient} {cik : PyStr} {spec : FilingFilter}
    {res : List Filing} {f : Filing} (h : cl.list_filings cik spec = .ok res)
    (hf : f ∈ res) :
    f ∈ applyFilters spec (cl.filings.filterMap (admitOne (zfill 10 cik))) := by
  rw [list_filings_ok_shape h] at hf
  have h1 : f ∈ sortDesc (applyFilters spec
      (cl.filings.filterMap (admitOne (zfill 10 cik)))) :=
    (List.take_sublist _ _).mem hf
  unfold sortDesc at h1
  exact (List.mem_insertionSort filingDescR).mp h1

/-- Claim C6.  On a well-typed store and a non-blank identifier the query
succeeds; every returned record matches the case-folded form-type set when
one is given, respects both inclusive date bounds, absent or empty
`form_types` imposes no restriction, and a range excluding every admitted
record yields `[]`, not an error. -/
theorem c6_filter_semantics (cl : SECClient) (cik : PyStr) (spec : FilingFilter)
    (hcik : pyStrip cik ≠ [])
    (hstore : ∀ r ∈ cl.filings, dateTypeOK r = true) :
    ∃ res, cl.list_filings cik spec = .ok res ∧
      (∀ f ∈ res, ∀ x xs, spec.form_types = some (x :: xs) →
        pyUpper f.form_type ∈ (x :: xs).map pyUpper) ∧
      (∀ f ∈ res, ∀ d, spec.date_from = some d → Date.le d f.filing_date) ∧
      (∀ f ∈ res, ∀ d, spec.date_to = some d → Date.le f.filing_date d) ∧
      ((spec.form_types = none ∨ spec.form_types = some []) →
        cl.list_filings cik spec =
          cl.list_filings cik ⟨none, spec.date_from, spec.date_to, spec.limit⟩) ∧
      ((∀ g ∈ cl.filings.filterMap (admitOne (zfill 10 cik)),
          ¬((∀ d, spec.date_from = some d → Date.le d g.filing_date) ∧
            (∀ d, spec.date_to = some d → Date.le g.filing_date d))) →
        res = []) := by
  have hadmit := @admitFilings_ok_of_dateTypeOK (zfill 10 cik) cl.filings hstore
  have hok : cl.list_filings cik spec = .ok ((sortDesc (applyFilters spec
      (cl.filings.filterMap (admitOne (zfill 10 cik))))).take spec.limit) := by
    unfold SECClient.list_filings
    rw [if_neg hcik, hadmit]
  refine ⟨_, hok, ?_, ?_, ?_, ?_, ?_⟩
  · intro f hf x xs hx
    exact (mem_applyFilters (mem_of_mem_list_filings hok hf)).2.1 x xs hx
  · intro f hf d hd
    exact (mem_applyFilters (mem_of_mem_list_filings hok hf)).2.2.1 d hd
  · intro f hf d hd
    exact (mem_applyFilters (mem_of_mem_list_filings hok hf)).2.2.2 d hd
  · rintro (h | h) <;>
      unfold SECClient.list_filings applyFilters applyFormFilter <;> rw [h]
  · intro hexcl
    have hnil : applyFilters spec (cl.filings.filterMap (admitOne (zfill 10 cik))) = [] := by
      rw [List.eq_nil_iff_forall_not_mem]
      intro f hf
      obtain ⟨hmem, _, hfrom, hto⟩ := mem_applyFilters hf
      exact hexcl f hmem ⟨hfrom, hto⟩
    rw [hnil]
    simp [sortDesc, List.insertionSort]

def c6spec : FilingFilter :=
  ⟨some [pyS "10-k"], some ⟨2030, 1, 1⟩, some ⟨2030, 12, 31⟩, 10⟩

/-- Witness for C6: a case-folded form filter together with a future date
range that excludes every record, via the theorem; concretely the query
returns `ok []`. -/
theorem c6_witness :
    (∃ res, demoClient.list_filings (pyS "320193") c6spec = .ok res ∧
      (∀ f ∈ res, ∀ x xs, c6spec.form_types = some (x :: xs) →
        pyUpper f.form_type ∈ (x :: xs).map pyUpper) ∧
      (∀ f ∈ res, ∀ d, c6spec.date_from = some d → Date.le d f.filing_date) ∧
      (∀ f ∈ res, ∀ d, c6spec.date_to = some d → Date.le f.filing_date d) ∧
      ((c6spec.form_types = none ∨ c6spec.form_types = some []) →
        demoClient.list_filings (pyS "320193") c6spec =
          demoClient.list_filings (pyS "320193")
            ⟨none, c6spec.date_from, c6spec.date_to, c6spec.limit⟩) ∧
      ((∀ g ∈ demoClient.filings.filterMap (admitOne (zfill 10 (pyS "320193"))),
          ¬((∀ d, c6spec.date_from = some d → Date.le d g.filing_date) ∧
            (∀ d, c6spec.date_to = some d → Date.le g.filing_date d))) →
        res = [])) ∧
    demoClient.list_filings (pyS "320193") c6spec = .ok [] :=
  ⟨c6_filter_semantics demoClient (pyS "320193") c6spec (by decide)
      (by decide), by decide⟩

/-! ### C3 support -/

theorem companyMake_ok {t c n : PyStr} {comp : Company}
    (h : Company.make t c n = .ok comp) :
    pyIsdigit (pyStrip c) = true ∧ comp = ⟨t, zfill 10 (pyStrip c), n⟩ := by
  unfold Company.make at h
  by_cases hd : pyIsdigit (pyStrip c) = true
  · rw [if_pos hd] at h
    exact ⟨hd, by simpa using h.symm⟩
  · rw [if_neg hd] at h
    exact absurd h (by simp)

theorem admitOne_some_iff {cikP : PyStr} {raw : RawFiling} {f : Filing} :
    admitOne cikP raw = some f ↔ stepRecord cikP raw = .ok (some f) := by
  unfold admitOne
  cases hs : stepRecord cikP raw with
  | error e => simp
  | ok o => cases o <;> simp

theorem stepRecord_some_shape {cikP : PyStr} {raw : RawFiling} {f : Filing}
    (h : stepRecord cikP raw = .ok (some f)) :
    zfill 10 (strOfOpt raw.cik) = cikP ∧
    ∃ d, readFilingDate raw.filing_date = .ok (some d) ∧
      f = Filing.make cikP (strOfOpt raw.company_name) (strOfOpt raw.form_type) d
            (strOfOpt raw.accession_number) := by
  unfold stepRecord at h
  by_cases hc : zfill 10 (strOfOpt raw.cik) = cikP
  · rw [if_pos hc] at h
    refine ⟨hc, ?_⟩
    cases hd : readFilingDate raw.filing_date with
    | error e => rw [hd] at h; exact absurd h (by simp)
    | ok o =>
      rw [hd] at h
      cases o with
      | none => exact absurd h (by simp)
      | some d =>
        refine ⟨d, rfl, ?_⟩
        have hf : Filing.make (zfill 10 (strOfOpt raw.cik)) (strOfOpt raw.company_name)
            (strOfOpt raw.form_type) d (strOfOpt raw.accession_number) = f := by
          simpa using h
        rw [← hf, hc]
  · rw [if_neg hc] at h
    exact absurd h (by simp)

/-- Claim C3, amended.  `Company` construction succeeds exactly on a
nonempty digit string (after trimming); the produced identifier is all
digits of length `max 10 n` — exactly 10 only when the source has at most
10 digits; every filing returned by a query carries the query identifier
zero-padded to 10 (again unpadded beyond 10 characters, and numeric only
when the query identifier is). -/
theorem c3_amended_identifier_invariant :
    (∀ t c n, (∃ comp, Company.make t c n = .ok comp) ↔
      pyIsdigit (pyStrip c) = true) ∧
    (∀ t c n comp, Company.make t c n = .ok comp →
      comp.cik.all Char.isDigit = true ∧
      comp.cik.length = max 10 (pyStrip c).length) ∧
    (∀ cl t comp, SECClient.lookup_company cl t = .ok comp →
      comp.cik.all Char.isDigit = true ∧ 10 ≤ comp.cik.length) ∧
    (∀ cl cik spec res f, SECClient.list_filings cl cik spec = .ok res → f ∈ res →
      f.cik = zfill 10 cik) := by
  have hmk : ∀ t c n comp, Company.make t c n = .ok comp →
      comp.cik.all Char.isDigit = true ∧
      comp.cik.length = max 10 (pyStrip c).length := by
    intro t c n comp h
    obtain ⟨hd, rfl⟩ := companyMake_ok h
    have hne : pyStrip c ≠ [] := pyIsdigit_ne_nil hd
    have hdig : (pyStrip c).all Char.isDigit = true := by
      unfold pyIsdigit at hd
      exact ((Bool.and_eq_true _ _).mp hd).2
    exact ⟨all_digits_zfill 10 hne hdig, length_zfill 10 (pyStrip c)⟩
  refine ⟨?_, hmk, ?_, ?_⟩
  · intro t c n
    constructor
    · rintro ⟨comp, h⟩
      exact (companyMake_ok h).1
    · intro hd
      refine ⟨⟨t, zfill 10 (pyStrip c), n⟩, ?_⟩
      unfold Company.make
      rw [if_pos hd]
  · intro cl t comp h
    rw [lookup_company_eq] at h
    by_cases hb : pyStrip t = []
    · rw [if_pos hb] at h; exact absurd h (by simp)
    · rw [if_neg hb] at h
      cases hdg : dictGet cl.companies (pyUpper t) with
      | none => rw [hdg] at h; exact absurd h (by simp)
      | some data =>
        rw [hdg] at h
        simp only at h
        by_cases hck : pyStrip (strOfOpt data.cik) = []
        · rw [if_pos hck] at h; exact absurd h (by simp)
        · rw [if_neg hck] at h
          obtain ⟨hall, hlen⟩ := hmk _ _ _ comp h
          exact ⟨hall, by omega⟩
  · intro cl cik spec res f h hf
    have hm := (mem_applyFilters (mem_of_mem_list_filings h hf)).1
    obtain ⟨raw, _, hraw⟩ := List.mem_filterMap.mp hm
    obtain ⟨_, d, _, hfeq⟩ := stepRecord_some_shape (admitOne_some_iff.mp hraw)
    rw [hfeq]
    unfold Filing.make
    simp only
    exact zfill_zfill 10 cik

/-- Witness for C3 (amended): a 6-digit source identifier yields an all
digit, exactly 10 character identifier, via the theorem. -/
theorem c3_witness :
    (⟨pyS "AAPL", pyS "0000320193", pyS "N"⟩ : Company).cik.all Char.isDigit = true ∧
    (⟨pyS "AAPL", pyS "0000320193", pyS "N"⟩ : Company).cik.length =
      max 10 (pyStrip (pyS "320193")).length :=
  c3_amended_identifier_invariant.2.1 (pyS "AAPL") (pyS "320193") (pyS "N")
    ⟨pyS "AAPL", pyS "0000320193", pyS "N"⟩ (by decide)

def bigEntry : CompanyData := ⟨some (pyS "12345678901"), none⟩

/-- Counterexample for C3: an 11-digit source identifier is accepted by
construction and `lookup_company` returns it with 11 characters, not
exactly 10. -/
theorem c3_counterexample :
    SECClient.lookup_company ⟨[(pyS "BIG", bigEntry)], [rawK]⟩ (pyS "BIG") =
      .ok ⟨pyS "BIG", pyS "12345678901", pyS "BIG"⟩ ∧
    (pyS "12345678901").length ≠ 10 := by decide

/-- Claim C8.  Exporting a filing writes `<accessionId>.json` inside the
target directory (default `downloads`), the written record carries all five
fields with the date rendered as `YYYY-MM-DD` text, and re-reading gives
back the same five values — the date text parses back to the record's
date. -/
theorem c8_export_roundtrip (f : Filing) (out_dir : Option PyStr)
    (hv : f.filing_date.Valid) :
    (SECClient.download_filing f out_dir).1 =
      (match out_dir with
       | none => pyS "downloads"
       | some d => if d = [] then pyS "downloads" else d) ++
        ('/' :: (f.accession_number ++ pyS ".json")) ∧
    (SECClient.download_filing f out_dir).2.cik = f.cik ∧
    (SECClient.download_filing f out_dir).2.company_name = f.company_name ∧
    (SECClient.download_filing f out_dir).2.form_type = f.form_type ∧
    (SECClient.download_filing f out_dir).2.accession_number = f.accession_number ∧
    (SECClient.download_filing f out_dir).2.filing_date = dateToIso f.filing_date ∧
    parseDate (SECClient.download_filing f out_dir).2.filing_date =
      some f.filing_date := by
  refine ⟨rfl, rfl, rfl, rfl, rfl, rfl, ?_⟩
  exact parseDate_dateToIso hv

def c8filing : Filing :=
  Filing.make (pyS "320193") (pyS "Apple Inc.") (pyS "10-K") ⟨2024, 6, 1⟩ (pyS "acc-2")

/-- Witness for C8: a concrete filing exported to the default directory,
via the theorem, plus the concrete path and date text. -/
theorem c8_witness :
    ((SECClient.download_filing c8filing none).1 =
      (match (none : Option PyStr) with
       | none => pyS "downloads"
       | some d => if d = [] then pyS "downloads" else d) ++
        ('/' :: (c8filing.accession_number ++ pyS ".json")) ∧
    (SECClient.download_filing c8filing none).2.cik = c8filing.cik ∧
    (SECClient.download_filing c8filing none).2.company_name = c8filing.company_name ∧
    (SECClient.download_filing c8filing none).2.form_type = c8filing.form_type ∧
    (SECClient.download_filing c8filing none).2.accession_number =
      c8filing.accession_number ∧
    (SECClient.download_filing c8filing none).2.filing_date =
      dateToIso c8filing.filing_date ∧
    parseDate (SECClient.download_filing c8filing none).2.filing_date =
      some c8filing.filing_date) ∧
    (SECClient.download_filing c8filing none).1 = pyS "downloads/acc-2.json" ∧
    (SECClient.download_filing c8filing none).2.filing_date = pyS "2024-06-01" :=
  ⟨c8_export_roundtrip c8filing none (by decide), by decide, by decide⟩
